import Mathlib

/-!
Shallow embedding of the bottle actuation and pour control core of the
evobot firmware: `Bottle::turn_to` (abortable, weight-aware servo stepping
with the three-sample weight-stabilization protocol) and `Bottle::pour`
(the single-bottle pour algorithm with its recovery paths), together with
the constants they use.

The servo, the scale driver and the wait/serial helpers are external to the
translated sources; they enter the model as an environment (per-iteration
abort-flag and sensor readings for `turn_to`) and as an oracle of call
results (for `pour`).  Every observable side effect (servo command, delay,
sensor read, abort poll, serial status message) is recorded in an explicit
trace so that claims about effects can be stated.
-/

namespace Evobot

/-- Valid servo range lower bound (`SERVO_MIN` in `src/lib/bottle/bottle.h`). -/
def SERVO_MIN : Int := 1000

/-- Valid servo range upper bound (`SERVO_MAX` in `src/lib/bottle/bottle.h`). -/
def SERVO_MAX : Int := 2000

/-- Modelled from the spec: the configured cup-presence threshold
`WEIGHT_EPSILON` (grams).  The configuration header defining it is not among
the sources; the concrete value is representative and no claim depends on it. -/
def WEIGHT_EPSILON : Int := 10

/-- Modelled from the spec: the fast fixed per-step delay `FAST_TURN_UP_DELAY`
used for the best-effort park maneuver on abort.  Concrete value representative. -/
def FAST_TURN_UP_DELAY : Int := 5

/-- Modelled from the spec: per-step delay `TURN_DOWN_DELAY` used when tilting
down.  Concrete value representative. -/
def TURN_DOWN_DELAY : Int := 15

/-- Modelled from the spec: per-step delay `TURN_UP_DELAY` used when tilting
up.  Concrete value representative. -/
def TURN_UP_DELAY : Int := 20

/-- Modelled from the spec: overall pour timeout `POURING_TIMEOUT` passed to
`delay_until`.  Concrete value representative. -/
def POURING_TIMEOUT : Int := 30000

/-- Modelled from the spec: accuracy offset `UPGRIGHT_OFFSET` subtracted from
the target weight handed to `delay_until`.  Concrete value representative. -/
def UPGRIGHT_OFFSET : Int := 2

/-- Modelled from the spec: offset `BOTTLE_EMPTY_POS_OFFSET` above `pos_up`
marking the distinctive bottle-empty rest position.  Concrete value
representative. -/
def BOTTLE_EMPTY_POS_OFFSET : Int := 30

/-- Error codes (`errv_t` values) returned by the bottle code.  `ok` is the
zero return value; the named failures are the codes `SERVO_OUT_OF_RANGE`,
`WHERE_THE_FUCK_IS_THE_CUP`, `WEIGHT_NOT_STABLE`, `ABORTED` and
`BOTTLE_EMPTY`; `sensorFail c` stands for any other nonzero scale-driver
code propagated unchanged. -/
inductive Errv where
  | ok
  | servoOutOfRange
  | cupMissing
  | weightNotStable
  | aborted
  | bottleEmpty
  | sensorFail (code : Int)
deriving DecidableEq, Repr

/-- Result of one `ads1231_get_noblock` call: a valid sample, the
`ADS1231_WOULD_BLOCK` signal, or a hard driver error. -/
inductive SensorRead where
  | ok (weight : Int)
  | wouldBlock
  | fail (e : Errv)
deriving DecidableEq, Repr

/-- Observable side effects of `turn_to`: one `check_aborted` poll, one
`ads1231_get_noblock` read, one `delay(ms)`, or one
`servo.writeMicroseconds(p)` command. -/
inductive Eff where
  | abortCheck
  | sample
  | delayMs (ms : Int)
  | cmd (p : Int)
deriving DecidableEq, Repr

/-- Environment of one `turn_to` call: what the abort flag and the
non-blocking scale read would yield at loop iteration `k`. -/
structure Env where
  abortFlag : Nat → Bool
  sensor : Nat → SensorRead

/-- Environment whose abort flag is never set and whose scale always delivers
the valid sample `f k` at iteration `k`. -/
def envOf (f : Nat → Int) : Env :=
  { abortFlag := fun _ => false, sensor := fun k => SensorRead.ok (f k) }

/-- One bottle: its number, the two calibrated servo positions, and the
servo's current commanded position (`servo.readMicroseconds()`). -/
structure Bottle where
  number : Int
  pos_down : Int
  pos_up : Int
  servoPos : Int
deriving DecidableEq, Repr

/-- `Bottle::get_pause_pos`: `(pos_down + pos_up) / 2`. -/
def get_pause_pos (b : Bottle) : Int :=
  (b.pos_down + b.pos_up) / 2

/-- Result of a `turn_to` call: the returned error code, the value written
through `stable_weight` (if any), the ordered effect trace, and the servo's
final commanded position. -/
structure TurnOut where
  ret : Errv
  stable : Option Int
  effs : List Eff
  servoPos : Int
deriving DecidableEq, Repr

/-- Effect trace of the plain stepping loop of `turn_to` when no abort check,
no weight check and no stabilization are requested: for each of `n` steps
starting at `i`, a `delay(delay_ms)` followed by a servo command. -/
def ramp_loop (delay_ms step : Int) : Nat → Int → List Eff
  | 0, _ => []
  | n+1, i => Eff.delayMs delay_ms :: Eff.cmd i :: ramp_loop delay_ms step n (i + step)

/-- `turn_to` specialized to `check_weight = false`, `stable_weight = NULL`,
`enable_abortcheck = false`: the range check, the no-op check, and the plain
stepping loop.  This is exactly the call `turn_up(FAST_TURN_UP_DELAY, false)`
performs (with `pos = pos_up`), used for the park maneuver on abort. -/
def turn_to_nochecks (pos delay_ms current_pos : Int) : TurnOut :=
  if pos < SERVO_MIN ∨ SERVO_MAX < pos then
    ⟨Errv.servoOutOfRange, none, [], current_pos⟩
  else if pos = current_pos then
    ⟨Errv.ok, none, [], current_pos⟩
  else
    let step : Int := if current_pos < pos then 1 else -1
    ⟨Errv.ok, none, ramp_loop delay_ms step (pos - current_pos).natAbs (current_pos + step), pos⟩

/-- Prefix an effect list onto the outcome of the rest of a loop. -/
def withStep (pre : List Eff) (rest : TurnOut) : TurnOut :=
  ⟨rest.ret, rest.stable, pre ++ rest.effs, rest.servoPos⟩

/-- The increment loop of `Bottle::turn_to`, one call per loop iteration.
`fuel` is the number of remaining iterations (`turn_to` passes
`|pos - current_pos|`), `k` the iteration index into the environment, `i` the
position the current iteration will command, `wp1`/`wp2` the last two weight
samples (`weight_previous1/2`), `sp` the servo's current position.  Each
iteration, in source order: the abort poll (on abort, the best-effort fast
park toward `pos_up` and the `ABORTED` return), the non-blocking weight read
with the cup-presence check and the three-sample stabilization check, then
the delay and the servo command. -/
def turn_to_loop (env : Env) (pos_up pos delay_ms : Int)
    (check_weight wantStable enable_abortcheck : Bool) (step : Int) :
    Nat → Nat → Int → Int → Int → Int → TurnOut
  | 0, _, _, _, _, sp =>
      ⟨if wantStable then Errv.weightNotStable else Errv.ok, none, [], sp⟩
  | fuel+1, k, i, wp1, wp2, sp =>
      if enable_abortcheck = true ∧ env.abortFlag k = true then
        let park := turn_to_nochecks pos_up FAST_TURN_UP_DELAY sp
        ⟨Errv.aborted, none, Eff.abortCheck :: park.effs, park.servoPos⟩
      else
        let pre : List Eff := if enable_abortcheck = true then [Eff.abortCheck] else []
        if check_weight = true ∨ wantStable = true then
          match env.sensor k with
          | SensorRead.ok w =>
              if check_weight = true ∧ w < WEIGHT_EPSILON then
                ⟨Errv.cupMissing, none, pre ++ [Eff.sample], sp⟩
              else if wantStable = true ∧ wp2 = wp1 ∧ wp1 = w then
                ⟨Errv.ok, some w, pre ++ [Eff.sample], sp⟩
              else
                withStep (pre ++ [Eff.sample, Eff.delayMs delay_ms, Eff.cmd i])
                  (turn_to_loop env pos_up pos delay_ms check_weight wantStable
                    enable_abortcheck step fuel (k+1) (i+step)
                    (if wantStable then w else wp1) (if wantStable then wp1 else wp2) i)
          | SensorRead.wouldBlock =>
              withStep (pre ++ [Eff.sample, Eff.delayMs delay_ms, Eff.cmd i])
                (turn_to_loop env pos_up pos delay_ms check_weight wantStable
                  enable_abortcheck step fuel (k+1) (i+step) wp1 wp2 i)
          | SensorRead.fail e =>
              ⟨e, none, pre ++ [Eff.sample], sp⟩
        else
          withStep (pre ++ [Eff.delayMs delay_ms, Eff.cmd i])
            (turn_to_loop env pos_up pos delay_ms check_weight wantStable
              enable_abortcheck step fuel (k+1) (i+step) wp1 wp2 i)

/-- `Bottle::turn_to(pos, delay_ms, check_weight, stable_weight,
enable_abortcheck)`.  `wantStable` is whether a non-null `stable_weight`
destination was passed; the value written through it is returned in the
`stable` field.  The range check and the no-op check precede everything, then
the loop runs for `|pos - current_pos|` single-microsecond steps. -/
def turn_to (env : Env) (b : Bottle) (pos delay_ms : Int)
    (check_weight wantStable enable_abortcheck : Bool) : TurnOut :=
  if pos < SERVO_MIN ∨ SERVO_MAX < pos then
    ⟨Errv.servoOutOfRange, none, [], b.servoPos⟩
  else if pos = b.servoPos then
    ⟨Errv.ok, none, [], b.servoPos⟩
  else
    let step : Int := if b.servoPos < pos then 1 else -1
    turn_to_loop env b.pos_up pos delay_ms check_weight wantStable enable_abortcheck step
      (pos - b.servoPos).natAbs 0 (b.servoPos + step) (-9999) (-9999) b.servoPos

/-- `Bottle::turn_up(delay_ms, enable_abortcheck)`:
`turn_to(pos_up, delay_ms, false, NULL, enable_abortcheck)`. -/
def turn_up (env : Env) (b : Bottle) (delay_ms : Int) (enable_abortcheck : Bool) : TurnOut :=
  turn_to env b b.pos_up delay_ms false false enable_abortcheck

/-- Observable events of `Bottle::pour`: the serial status and error messages
it emits, the display clear, and the external calls it makes (each
`callTurnTo` records the target position, per-step delay, and the
`check_weight` / non-null-`stable_weight` flags of the call). -/
inductive Ev where
  | msgPouring (bottle weight : Int)
  | errBottleEmpty (bottle : Int)
  | errCupMissing
  | lcdClear
  | callTurnTo (pos delay_ms : Int) (check_weight wantStable : Bool)
  | callDelayUntil (timeout target : Int)
  | callWaitForCup
  | callWaitForResume
  | callGetStableGrams
  | callGetGrams
deriving DecidableEq, Repr

/-- Oracle for `pour`: the sequence of results of its fallible external calls
(`turn_to`, `delay_until`, `wait_for_cup`, `wait_for_resume`,
`ads1231_get_stable_grams`, `ads1231_get_grams`), each an error code together
with the weight the call would write through its out-parameter.  Modelled
from the spec: these callees are outside the translated sources, so `pour` is
verified over all possible result sequences. -/
abbrev Oracle := List (Errv × Int)

/-- One iteration of the baseline loop of `Bottle::pour` up to (not
including) the cup decision: the `turn_to(below_pause, TURN_DOWN_DELAY, true,
&orig_weight)` call and, when it returns `WEIGHT_NOT_STABLE`, the fallback
`ads1231_get_stable_grams(orig_weight)` call.  Yields the resulting error
code, the current `orig_weight`, the events, and the unconsumed oracle;
`none` when the oracle is exhausted. -/
def pour_baseline_attempt (b : Bottle) (orig0 : Int) :
    Oracle → Option (Errv × Int × List Ev × Oracle)
  | [] => none
  | (r1, w1) :: or1 =>
    let below_pause := (b.pos_down + get_pause_pos b) / 2
    let ev0 : List Ev := [Ev.callTurnTo below_pause TURN_DOWN_DELAY true true]
    let orig1 := if r1 = Errv.ok then w1 else orig0
    if r1 = Errv.weightNotStable then
      match or1 with
      | [] => none
      | (r2, w2) :: or2 =>
        some (r2, (if r2 = Errv.ok then w2 else orig1), ev0 ++ [Ev.callGetStableGrams], or2)
    else
      some (r1, orig1, ev0, or1)

/-- The baseline loop of `Bottle::pour` (`while (1) { ... }` establishing
`orig_weight`): measure while turning to `below_pause`; on a fatal error
return it; when the cup is missing or the measured weight is below
`WEIGHT_EPSILON`, call `wait_for_cup()` (returning its error if nonzero) and
retry; otherwise exit with the established baseline.  The returned code is
`ok` exactly when the baseline was established. -/
def pour_baseline (b : Bottle) : Int → Nat → Oracle → Option (Errv × Int × List Ev × Oracle)
  | _, 0, _ => none
  | orig0, fuel+1, or0 =>
    match pour_baseline_attempt b orig0 or0 with
    | none => none
    | some (ret, orig2, ev1, or2) =>
      if ret ≠ Errv.ok ∧ ret ≠ Errv.cupMissing then
        some (ret, orig2, ev1, or2)
      else if ret = Errv.cupMissing ∨ orig2 < WEIGHT_EPSILON then
        match or2 with
        | [] => none
        | (r3, _) :: or3 =>
          let ev2 := ev1 ++ [Ev.callWaitForCup]
          if r3 ≠ Errv.ok then
            some (r3, orig2, ev2, or3)
          else
            match pour_baseline b orig2 fuel or3 with
            | none => none
            | some (e, o, evs, orr) => some (e, o, ev2 ++ evs, orr)
      else
        some (Errv.ok, orig2, ev1, or2)

/-- The head of one pouring-loop iteration of `Bottle::pour`: emit
`POURING <number> <orig_weight>`, call `turn_down(TURN_DOWN_DELAY, true)`,
and when that succeeds call
`delay_until(POURING_TIMEOUT, orig_weight + requested_amount - UPGRIGHT_OFFSET, true)`.
Yields the combined error code `ret` the loop body then dispatches on. -/
def pour_attempt (b : Bottle) (requested orig : Int) :
    Oracle → Option (Errv × List Ev × Oracle)
  | [] => none
  | (r1, _) :: or1 =>
    let ev0 : List Ev :=
      [Ev.msgPouring b.number orig, Ev.callTurnTo b.pos_down TURN_DOWN_DELAY true false]
    if r1 = Errv.ok then
      match or1 with
      | [] => none
      | (r2, _) :: or2 =>
        some (r2, ev0 ++ [Ev.callDelayUntil POURING_TIMEOUT (orig + requested - UPGRIGHT_OFFSET)], or2)
    else
      some (r1, ev0, or1)

/-- The `BOTTLE_EMPTY` recovery arm of the pouring loop: emit the error
naming the bottle, `turn_to(pos_up + BOTTLE_EMPTY_POS_OFFSET, TURN_UP_DELAY)`
(returning its error if nonzero), `wait_for_resume()` (returning its error if
nonzero, e.g. `ABORTED`), then clear the displayed error.  The returned code
is `ok` exactly when the loop is to be retried. -/
def pour_recover_empty (b : Bottle) : Oracle → Option (Errv × List Ev × Oracle)
  | [] => none
  | (r3, _) :: or3 =>
    let ev2 : List Ev :=
      [Ev.errBottleEmpty b.number,
       Ev.callTurnTo (b.pos_up + BOTTLE_EMPTY_POS_OFFSET) TURN_UP_DELAY false false]
    if r3 ≠ Errv.ok then
      some (r3, ev2, or3)
    else
      match or3 with
      | [] => none
      | (r4, _) :: or4 =>
        let ev3 := ev2 ++ [Ev.callWaitForResume]
        if r4 ≠ Errv.ok then
          some (r4, ev3, or4)
        else
          some (Errv.ok, ev3 ++ [Ev.lcdClear], or4)

/-- The `WHERE_THE_FUCK_IS_THE_CUP` recovery arm of the pouring loop: emit
the error, `turn_to_pause_pos(FAST_TURN_UP_DELAY)`, `wait_for_cup()`, then
clear the displayed error; nonzero results are returned as with the
bottle-empty arm. -/
def pour_recover_cupgone (b : Bottle) : Oracle → Option (Errv × List Ev × Oracle)
  | [] => none
  | (r3, _) :: or3 =>
    let ev2 : List Ev :=
      [Ev.errCupMissing,
       Ev.callTurnTo (get_pause_pos b) FAST_TURN_UP_DELAY false false]
    if r3 ≠ Errv.ok then
      some (r3, ev2, or3)
    else
      match or3 with
      | [] => none
      | (r4, _) :: or4 =>
        let ev3 := ev2 ++ [Ev.callWaitForCup]
        if r4 ≠ Errv.ok then
          some (r4, ev3, or4)
        else
          some (Errv.ok, ev3 ++ [Ev.lcdClear], or4)

/-- The pouring loop of `Bottle::pour` (`while (1) { ... }`): run one
attempt; `break` on success (code `ok`), dispatch `BOTTLE_EMPTY` and
cup-missing into their recovery arms and retry on recovered, and return any
other code (abort, scale error, failed recovery) as the result of `pour`. -/
def pour_loop (b : Bottle) (requested orig : Int) :
    Nat → Oracle → Option (Errv × List Ev × Oracle)
  | 0, _ => none
  | fuel+1, or0 =>
    match pour_attempt b requested orig or0 with
    | none => none
    | some (ret, ev1, or2) =>
      if ret = Errv.ok then
        some (Errv.ok, ev1, or2)
      else if ret = Errv.bottleEmpty then
        match pour_recover_empty b or2 with
        | none => none
        | some (e, ev2, or3) =>
          if e = Errv.ok then
            match pour_loop b requested orig fuel or3 with
            | none => none
            | some (e2, evs, orr) => some (e2, ev1 ++ ev2 ++ evs, orr)
          else
            some (e, ev1 ++ ev2, or3)
      else if ret = Errv.cupMissing then
        match pour_recover_cupgone b or2 with
        | none => none
        | some (e, ev2, or3) =>
          if e = Errv.ok then
            match pour_loop b requested orig fuel or3 with
            | none => none
            | some (e2, evs, orr) => some (e2, ev1 ++ ev2 ++ evs, orr)
          else
            some (e, ev1 ++ ev2, or3)
      else
        some (ret, ev1, or2)

/-- The tail of `Bottle::pour` after the pouring loop breaks:
`turn_to_pause_pos(TURN_UP_DELAY)`, then `ads1231_get_grams(measured_amount)`
and `measured_amount -= orig_weight`; nonzero results of either call are
returned without a measured amount. -/
def pour_tail (b : Bottle) (orig : Int) : Oracle → Option (Errv × Option Int × List Ev)
  | [] => none
  | (r1, _) :: or1 =>
    let ev0 : List Ev := [Ev.callTurnTo (get_pause_pos b) TURN_UP_DELAY false false]
    if r1 ≠ Errv.ok then
      some (r1, none, ev0)
    else
      match or1 with
      | [] => none
      | (r2, w2) :: _ =>
        let ev1 := ev0 ++ [Ev.callGetGrams]
        if r2 ≠ Errv.ok then
          some (r2, none, ev1)
        else
          some (Errv.ok, some (w2 - orig), ev1)

/-- `Bottle::pour(requested_amount, measured_amount)`: establish the baseline
weight, run the pouring loop, then settle at the pause position and report
`measured_amount = settled weight - orig_weight`.  `fuelB`/`fuelL` bound the
iterations of the two retry loops; the result is the returned error code, the
final `measured_amount` when `pour` returns success, and the event trace. -/
def pour (b : Bottle) (requested : Int) (fuelB fuelL : Nat) (or0 : Oracle) :
    Option (Errv × Option Int × List Ev) :=
  match pour_baseline b 0 fuelB or0 with
  | none => none
  | some (e0, orig, evB, or1) =>
    if e0 ≠ Errv.ok then
      some (e0, none, evB)
    else
      match pour_loop b requested orig fuelL or1 with
      | none => none
      | some (e1, evL, or2) =>
        if e1 ≠ Errv.ok then
          some (e1, none, evB ++ evL)
        else
          match pour_tail b orig or2 with
          | none => none
          | some (e2, m, evT) => some (e2, m, evB ++ evL ++ evT)

/-- The stabilization tracker of `turn_to` in isolation: scanning samples
`f k, f (k+1), ...` for at most `n` steps with previous-sample state
`wp1`/`wp2` (`weight_previous1/2`), the value at which
`wp2 == wp1 && wp1 == f m` first holds, if any. -/
def stabTrigger (f : Nat → Int) : Nat → Nat → Int → Int → Option Int
  | 0, _, _, _ => none
  | n+1, k, wp1, wp2 =>
      if wp2 = wp1 ∧ wp1 = f k then some (f k)
      else stabTrigger f n (k+1) (f k) wp1

theorem ramp_loop_mem (d step : Int) :
    ∀ (n : Nat) (i : Int) (e : Eff), e ∈ ramp_loop d step n i →
      e = Eff.delayMs d ∨ ∃ p, e = Eff.cmd p := by
  intro n
  induction n with
  | zero => intro i e h; simp [ramp_loop] at h
  | succ m ih =>
    intro i e h
    simp only [ramp_loop, List.mem_cons] at h
    rcases h with h | h | h
    · exact Or.inl h
    · exact Or.inr ⟨i, h⟩
    · exact ih (i + step) e h

theorem ramp_loop_cmd_mem (d step : Int) :
    ∀ (n : Nat) (i p : Int), Eff.cmd p ∈ ramp_loop d step n i →
      ∃ t : Nat, t < n ∧ p = i + step * t := by
  intro n
  induction n with
  | zero => intro i p h; simp [ramp_loop] at h
  | succ m ih =>
    intro i p h
    simp only [ramp_loop, List.mem_cons] at h
    rcases h with h | h | h
    · exact absurd h (by simp)
    · refine ⟨0, by omega, ?_⟩
      simp only [Eff.cmd.injEq] at h
      omega
    · obtain ⟨t, ht, hp⟩ := ih (i + step) p h
      exact ⟨t + 1, by omega, by push_cast [hp]; ring⟩

theorem turn_to_nochecks_effs (pos dl cur : Int) :
    ∀ e ∈ (turn_to_nochecks pos dl cur).effs,
      e = Eff.delayMs dl ∨ ∃ p, e = Eff.cmd p := by
  intro e h
  unfold turn_to_nochecks at h
  split_ifs at h
  · simp at h
  · simp at h
  · exact ramp_loop_mem dl 1 _ _ e (by simpa using h)
  · exact ramp_loop_mem dl (-1) _ _ e (by simpa using h)

theorem turn_to_nochecks_cmd_range (pos dl cur : Int)
    (hc1 : SERVO_MIN ≤ cur) (hc2 : cur ≤ SERVO_MAX) :
    ∀ p : Int, Eff.cmd p ∈ (turn_to_nochecks pos dl cur).effs →
      SERVO_MIN ≤ p ∧ p ≤ SERVO_MAX := by
  intro p h
  unfold turn_to_nochecks at h
  split_ifs at h with h1 h2 h3
  · simp at h
  · simp at h
  · obtain ⟨t, ht, hp⟩ := ramp_loop_cmd_mem dl 1 _ _ p (by simpa using h)
    push_neg at h1
    omega
  · obtain ⟨t, ht, hp⟩ := ramp_loop_cmd_mem dl (-1) _ _ p (by simpa using h)
    push_neg at h1
    omega

theorem turn_to_out_of_range_aux (env : Env) (b : Bottle) (pos d : Int)
    (cw ws ab : Bool) (h : pos < SERVO_MIN ∨ SERVO_MAX < pos) :
    turn_to env b pos d cw ws ab = ⟨Errv.servoOutOfRange, none, [], b.servoPos⟩ := by
  unfold turn_to
  rw [if_pos h]

/-- C3: a target outside `[SERVO_MIN, SERVO_MAX]` makes `turn_to` return
`SERVO_OUT_OF_RANGE` with an empty effect trace — no servo command, no delay,
no weight sample, no abort poll — and the servo position unchanged. -/
theorem turn_to_out_of_range (env : Env) (b : Bottle) (pos d : Int)
    (cw ws ab : Bool) (h : pos < SERVO_MIN ∨ SERVO_MAX < pos) :
    turn_to env b pos d cw ws ab = ⟨Errv.servoOutOfRange, none, [], b.servoPos⟩ :=
  turn_to_out_of_range_aux env b pos d cw ws ab h

theorem turn_to_out_of_range_witness :
    turn_to (envOf (fun _ => (50:Int))) ⟨0, 1300, 1500, 1200⟩ 999 1 true true true
      = ⟨Errv.servoOutOfRange, none, [], 1200⟩ :=
  turn_to_out_of_range _ _ 999 1 true true true (by decide)

/-- C9: an in-range target equal to the servo's current position makes
`turn_to` return success immediately with an empty effect trace, for every
combination of the abort-check, weight-check and stabilization flags. -/
theorem turn_to_noop_at_current (env : Env) (b : Bottle) (pos d : Int)
    (cw ws ab : Bool) (h1 : SERVO_MIN ≤ pos) (h2 : pos ≤ SERVO_MAX)
    (h3 : pos = b.servoPos) :
    turn_to env b pos d cw ws ab = ⟨Errv.ok, none, [], b.servoPos⟩ := by
  unfold turn_to
  rw [if_neg (by omega), if_pos h3]

theorem turn_to_noop_at_current_witness :
    turn_to (envOf (fun _ => (50:Int))) ⟨0, 1300, 1500, 1200⟩ 1200 1 true true true
      = ⟨Errv.ok, none, [], 1200⟩ :=
  turn_to_noop_at_current _ _ 1200 1 true true true (by decide) (by decide) rfl

/-- C7: at any iteration of the `turn_to` loop with weight checking
requested, if the abort flag is not set and the non-blocking read yields a
valid sample below `WEIGHT_EPSILON`, the call returns
`WHERE_THE_FUCK_IS_THE_CUP` at once: the trace ends with that sample (no
delay and no servo command after it) and the servo position is unchanged. -/
theorem turn_to_step_cup_missing (env : Env) (pos_up pos d : Int) (ws ab : Bool)
    (step : Int) (fuel k : Nat) (i wp1 wp2 sp w : Int)
    (hs : env.sensor k = SensorRead.ok w) (hw : w < WEIGHT_EPSILON)
    (ha : env.abortFlag k = false) :
    turn_to_loop env pos_up pos d true ws ab step (fuel+1) k i wp1 wp2 sp =
      ⟨Errv.cupMissing, none,
       (if ab = true then [Eff.abortCheck] else []) ++ [Eff.sample], sp⟩ := by
  simp [turn_to_loop, ha, hs, hw]

theorem turn_to_step_cup_missing_witness :
    turn_to_loop (envOf (fun _ => (3:Int))) 1500 1205 1 true false true 1 5 0 1201 (-9999) (-9999) 1200
      = ⟨Errv.cupMissing, none, [Eff.abortCheck, Eff.sample], 1200⟩ := by
  have h := turn_to_step_cup_missing (envOf (fun _ => (3:Int))) 1500 1205 1 false true 1
    4 0 1201 (-9999) (-9999) 1200 3 rfl (by decide) rfl
  simpa using h

/-- C4: at any iteration of the `turn_to` loop with abort checking enabled,
if the abort poll observes the flag set, the call immediately performs the
park maneuver — exactly `turn_up(FAST_TURN_UP_DELAY, false)` from the current
servo position, whose trace contains only fixed fast delays and servo
commands (no abort polls, no weight samples) — and returns `ABORTED`,
regardless of the weight-check and stabilization flags and of the tracker
state at that step. -/
theorem turn_to_abort_parks_up (env : Env) (pos_up pos d : Int) (cw ws : Bool)
    (step : Int) (fuel k : Nat) (i wp1 wp2 sp : Int)
    (ha : env.abortFlag k = true) :
    turn_to_loop env pos_up pos d cw ws true step (fuel+1) k i wp1 wp2 sp =
      ⟨Errv.aborted, none,
       Eff.abortCheck :: (turn_to_nochecks pos_up FAST_TURN_UP_DELAY sp).effs,
       (turn_to_nochecks pos_up FAST_TURN_UP_DELAY sp).servoPos⟩
    ∧ ∀ e ∈ (turn_to_nochecks pos_up FAST_TURN_UP_DELAY sp).effs,
        e = Eff.delayMs FAST_TURN_UP_DELAY ∨ ∃ p, e = Eff.cmd p := by
  constructor
  · simp [turn_to_loop, ha]
  · exact turn_to_nochecks_effs pos_up FAST_TURN_UP_DELAY sp

theorem turn_to_abort_parks_up_witness :
    turn_to_loop { abortFlag := fun _ => true, sensor := fun _ => SensorRead.ok 50 }
        1203 1210 1 true true true 1 9 0 1201 (-9999) (-9999) 1200
      = ⟨Errv.aborted, none,
         [Eff.abortCheck, Eff.delayMs FAST_TURN_UP_DELAY, Eff.cmd 1201,
          Eff.delayMs FAST_TURN_UP_DELAY, Eff.cmd 1202,
          Eff.delayMs FAST_TURN_UP_DELAY, Eff.cmd 1203], 1203⟩ := by
  have h := turn_to_abort_parks_up
    { abortFlag := fun _ => true, sensor := fun _ => SensorRead.ok 50 }
    1203 1210 1 true true 1 8 0 1201 (-9999) (-9999) 1200 rfl
  rw [h.1]
  decide

theorem turn_to_loop_stable_char (f : Nat → Int) (pos_up pos d step : Int) :
    ∀ (fuel k : Nat) (i wp1 wp2 sp : Int),
      (turn_to_loop (envOf f) pos_up pos d false true false step fuel k i wp1 wp2 sp).stable
          = stabTrigger f fuel k wp1 wp2
      ∧ (turn_to_loop (envOf f) pos_up pos d false true false step fuel k i wp1 wp2 sp).ret
          = (stabTrigger f fuel k wp1 wp2).elim Errv.weightNotStable (fun _ => Errv.ok) := by
  intro fuel
  induction fuel with
  | zero =>
    intro k i wp1 wp2 sp
    simp [turn_to_loop, stabTrigger]
  | succ m ih =>
    intro k i wp1 wp2 sp
    by_cases h : wp2 = wp1 ∧ wp1 = f k
    · simp [turn_to_loop, stabTrigger, envOf, h]
    · have hrec := ih (k+1) (i+step) (f k) wp1 i
      simp only [turn_to_loop, stabTrigger, envOf, withStep]
      simpa [h] using hrec

theorem stabTrigger_some (f : Nat → Int) :
    ∀ (n k : Nat) (wp1 wp2 w : Int), stabTrigger f n k wp1 wp2 = some w →
      (1 ≤ n ∧ wp2 = wp1 ∧ wp1 = f k ∧ w = f k)
      ∨ (2 ≤ n ∧ wp1 = f k ∧ f k = f (k+1) ∧ w = f (k+1))
      ∨ ∃ j, k ≤ j ∧ j + 2 < k + n ∧ f j = f (j+1) ∧ f (j+1) = f (j+2) ∧ w = f (j+2) := by
  intro n
  induction n with
  | zero => intro k wp1 wp2 w h; simp [stabTrigger] at h
  | succ m ih =>
    intro k wp1 wp2 w h
    rw [stabTrigger] at h
    split_ifs at h with hc
    · simp only [Option.some.injEq] at h
      exact Or.inl ⟨by omega, hc.1, hc.2, h.symm⟩
    · rcases ih (k+1) (f k) wp1 w h with ⟨hm, h2, h3, h4⟩ | ⟨hm, h2, h3, h4⟩ |
        ⟨j, hj1, hj2, hj3, hj4, hj5⟩
      · exact Or.inr (Or.inl ⟨by omega, h2, h3, h4⟩)
      · exact Or.inr (Or.inr ⟨k, Nat.le_refl k, by omega, h2, h3, h4⟩)
      · exact Or.inr (Or.inr ⟨j, by omega, by omega, hj3, hj4, hj5⟩)

theorem stabTrigger_none (f : Nat → Int) :
    ∀ (n k : Nat) (wp1 wp2 : Int), stabTrigger f n k wp1 wp2 = none →
      ∀ j, k ≤ j → j + 2 < k + n → ¬(f j = f (j+1) ∧ f (j+1) = f (j+2)) := by
  intro n
  induction n with
  | zero => intro k wp1 wp2 _ j hj1 hj2 _; omega
  | succ m ih =>
    intro k wp1 wp2 h j hj1 hj2 hc
    rw [stabTrigger] at h
    split_ifs at h with hcond
    rcases Nat.eq_or_lt_of_le hj1 with rfl | hlt
    · have hm : 2 ≤ m := by omega
      obtain ⟨t, rfl⟩ : ∃ t, m = t + 2 := ⟨m - 2, by omega⟩
      rw [stabTrigger] at h
      split_ifs at h with hc1
      rw [stabTrigger] at h
      split_ifs at h with hc2
    · exact ih (k+1) (f k) wp1 h j hlt (by omega) hc

/-- C1 counterexample: with the very first non-blocking sample equal to the
tracker initializer −9999, `turn_to` declares the weight stable immediately —
success with stabilized value −9999 after a single sample (the trace holds
exactly one `sample` effect), although no three samples were ever compared. -/
theorem turn_to_sentinel_stable_after_one_sample :
    turn_to (envOf (fun _ => (-9999:Int))) ⟨0, 1300, 1500, 1200⟩ 1205 1 false true false
      = ⟨Errv.ok, some (-9999), [Eff.sample], 1200⟩ := by
  decide

/-- C1 (amended): provided no sample equals the tracker initializer −9999,
a `turn_to` call with stabilization requested (and no weight check or abort
check) declares the weight stable iff three consecutive valid samples within
its stepping window are bit-for-bit equal, and any stabilized value it
returns is the third sample of such a run. -/
theorem turn_to_stabilizes_iff_three_equal (f : Nat → Int) (b : Bottle) (pos d : Int)
    (h1 : SERVO_MIN ≤ pos) (h2 : pos ≤ SERVO_MAX) (h3 : pos ≠ b.servoPos)
    (hf : ∀ j, f j ≠ -9999) :
    ((turn_to (envOf f) b pos d false true false).ret = Errv.ok
       ↔ ∃ j, j + 2 < (pos - b.servoPos).natAbs ∧ f j = f (j+1) ∧ f (j+1) = f (j+2))
    ∧ (∀ w, (turn_to (envOf f) b pos d false true false).stable = some w →
        ∃ j, j + 2 < (pos - b.servoPos).natAbs ∧ f j = f (j+1) ∧ f (j+1) = f (j+2)
          ∧ w = f (j+2)) := by
  have hrange : ¬(pos < SERVO_MIN ∨ SERVO_MAX < pos) := by omega
  have hT : turn_to (envOf f) b pos d false true false
      = turn_to_loop (envOf f) b.pos_up pos d false true false
          (if b.servoPos < pos then 1 else -1) (pos - b.servoPos).natAbs 0
          (b.servoPos + (if b.servoPos < pos then 1 else -1)) (-9999) (-9999) b.servoPos := by
    unfold turn_to
    rw [if_neg hrange, if_neg h3]
  have hchar := turn_to_loop_stable_char f b.pos_up pos d
    (if b.servoPos < pos then 1 else -1) (pos - b.servoPos).natAbs 0
    (b.servoPos + (if b.servoPos < pos then 1 else -1)) (-9999) (-9999) b.servoPos
  constructor
  · constructor
    · intro hret
      rw [hT, hchar.2] at hret
      cases hTrig : stabTrigger f (pos - b.servoPos).natAbs 0 (-9999) (-9999) with
      | none => rw [hTrig] at hret; simp at hret
      | some w =>
        rcases stabTrigger_some f _ 0 _ _ w hTrig with ⟨_, _, hw, _⟩ | ⟨_, hw, _, _⟩ |
          ⟨j, _, hj2, hj3, hj4, _⟩
        · exact absurd hw.symm (hf 0)
        · exact absurd hw.symm (hf 0)
        · exact ⟨j, by omega, hj3, hj4⟩
    · rintro ⟨j, hj, hj3, hj4⟩
      rw [hT, hchar.2]
      cases hTrig : stabTrigger f (pos - b.servoPos).natAbs 0 (-9999) (-9999) with
      | none =>
        exact absurd ⟨hj3, hj4⟩ (stabTrigger_none f _ 0 _ _ hTrig j (Nat.zero_le j) (by omega))
      | some w => rfl
  · intro w hst
    rw [hT, hchar.1] at hst
    rcases stabTrigger_some f _ 0 _ _ w hst with ⟨_, _, hw, _⟩ | ⟨_, hw, _, _⟩ |
      ⟨j, _, hj2, hj3, hj4, hj5⟩
    · exact absurd hw.symm (hf 0)
    · exact absurd hw.symm (hf 0)
    · exact ⟨j, by omega, hj3, hj4, hj5⟩

theorem turn_to_stabilizes_iff_three_equal_witness :
    (turn_to (envOf (fun _ => (50:Int))) ⟨0, 1300, 1500, 1200⟩ 1205 1 false true false).ret
      = Errv.ok :=
  (turn_to_stabilizes_iff_three_equal (fun _ => (50:Int)) ⟨0, 1300, 1500, 1200⟩ 1205 1
    (by decide) (by decide) (by decide) (fun j => by show (50:Int) ≠ -9999; decide)).1.mpr ⟨0, by decide, rfl, rfl⟩

/-- C2 counterexample: with stabilization requested and an in-range target
equal to the current position, `turn_to` returns success (0), not
`WEIGHT_NOT_STABLE` — the no-op early return precedes the stabilization
logic. -/
theorem turn_to_stable_noop_returns_ok :
    (turn_to (envOf (fun _ => (50:Int))) ⟨0, 1300, 1500, 1200⟩ 1200 1 false true false).ret
        = Errv.ok
    ∧ Errv.ok ≠ Errv.weightNotStable := by
  decide

/-- C2 (amended): with stabilization requested, if the target differs from
the current position and is reached without three consecutive equal samples
(none equal to the initializer −9999) having occurred, `turn_to` reports
`WEIGHT_NOT_STABLE`; if the target equals the current position it reports
success instead. -/
theorem turn_to_reports_not_stable (f : Nat → Int) (b : Bottle) (pos d : Int)
    (h1 : SERVO_MIN ≤ pos) (h2 : pos ≤ SERVO_MAX) (hf : ∀ j, f j ≠ -9999) :
    (pos ≠ b.servoPos →
      (¬ ∃ j, j + 2 < (pos - b.servoPos).natAbs ∧ f j = f (j+1) ∧ f (j+1) = f (j+2)) →
      (turn_to (envOf f) b pos d false true false).ret = Errv.weightNotStable)
    ∧ (pos = b.servoPos → (turn_to (envOf f) b pos d false true false).ret = Errv.ok) := by
  have hrange : ¬(pos < SERVO_MIN ∨ SERVO_MAX < pos) := by omega
  constructor
  · intro h3 hno
    have hT : turn_to (envOf f) b pos d false true false
        = turn_to_loop (envOf f) b.pos_up pos d false true false
            (if b.servoPos < pos then 1 else -1) (pos - b.servoPos).natAbs 0
            (b.servoPos + (if b.servoPos < pos then 1 else -1)) (-9999) (-9999) b.servoPos := by
      unfold turn_to
      rw [if_neg hrange, if_neg h3]
    have hchar := turn_to_loop_stable_char f b.pos_up pos d
      (if b.servoPos < pos then 1 else -1) (pos - b.servoPos).natAbs 0
      (b.servoPos + (if b.servoPos < pos then 1 else -1)) (-9999) (-9999) b.servoPos
    rw [hT, hchar.2]
    cases hTrig : stabTrigger f (pos - b.servoPos).natAbs 0 (-9999) (-9999) with
    | none => rfl
    | some w =>
      rcases stabTrigger_some f _ 0 _ _ w hTrig with ⟨_, _, hw, _⟩ | ⟨_, hw, _, _⟩ |
        ⟨j, _, hj2, hj3, hj4, _⟩
      · exact absurd hw.symm (hf 0)
      · exact absurd hw.symm (hf 0)
      · exact absurd ⟨j, by omega, hj3, hj4⟩ hno
  · intro h3
    unfold turn_to
    rw [if_neg hrange, if_pos h3]

theorem turn_to_reports_not_stable_witness :
    (turn_to (envOf (fun _ => (50:Int))) ⟨0, 1300, 1500, 1200⟩ 1202 1 false true false).ret
      = Errv.weightNotStable := by
  refine (turn_to_reports_not_stable (fun _ => (50:Int)) ⟨0, 1300, 1500, 1200⟩ 1202 1
    (by decide) (by decide) (fun j => by show (50:Int) ≠ -9999; decide)).1 (by decide) ?_
  rintro ⟨j, hj, -, -⟩
  have h2 : ((1202:Int) - (Bottle.mk 0 1300 1500 1200).servoPos).natAbs = 2 := rfl
  rw [h2] at hj
  omega

theorem turn_to_loop_cmd_range (env : Env) (pos_up pos d : Int) (cw ws ab : Bool)
    (step : Int) (hstep : step = 1 ∨ step = -1)
    (hp1 : SERVO_MIN ≤ pos) (hp2 : pos ≤ SERVO_MAX) :
    ∀ (fuel : Nat) (k : Nat) (i wp1 wp2 sp : Int),
      (fuel : Int) = step * (pos - i) + 1 →
      (1 ≤ fuel → SERVO_MIN ≤ i ∧ i ≤ SERVO_MAX) →
      SERVO_MIN ≤ sp → sp ≤ SERVO_MAX →
      ∀ p, Eff.cmd p ∈ (turn_to_loop env pos_up pos d cw ws ab step fuel k i wp1 wp2 sp).effs →
        SERVO_MIN ≤ p ∧ p ≤ SERVO_MAX := by
  intro fuel
  induction fuel with
  | zero =>
    intro k i wp1 wp2 sp _ _ _ _ p hp
    simp [turn_to_loop] at hp
  | succ m ih =>
    intro k i wp1 wp2 sp hfuel hi hsp1 hsp2 p hp
    have hi' : SERVO_MIN ≤ i ∧ i ≤ SERVO_MAX := hi (by omega)
    have hfuel' : (m : Int) = step * (pos - (i + step)) + 1 := by
      rcases hstep with rfl | rfl <;> push_cast at hfuel ⊢ <;> omega
    have hnext : 1 ≤ m → SERVO_MIN ≤ i + step ∧ i + step ≤ SERVO_MAX := by
      intro hm
      rcases hstep with rfl | rfl <;> push_cast at hfuel <;> omega
    have hih := fun wp1' wp2' =>
      ih (k+1) (i+step) wp1' wp2' i hfuel' hnext hi'.1 hi'.2 p
    rw [turn_to_loop] at hp
    by_cases hA : ab = true ∧ env.abortFlag k = true
    · rw [if_pos hA] at hp
      simp only [List.mem_cons] at hp
      rcases hp with hp | hp
      · exact absurd hp (by simp)
      · exact turn_to_nochecks_cmd_range pos_up FAST_TURN_UP_DELAY sp hsp1 hsp2 p hp
    · rw [if_neg hA] at hp
      by_cases hW : cw = true ∨ ws = true
      · rw [if_pos hW] at hp
        cases hS : env.sensor k with
        | ok w =>
          rw [hS] at hp
          dsimp only [] at hp
          by_cases hcup : cw = true ∧ w < WEIGHT_EPSILON
          · rw [if_pos hcup] at hp
            rcases ab with _ | _ <;> simp at hp
          · rw [if_neg hcup] at hp
            by_cases hstab : ws = true ∧ wp2 = wp1 ∧ wp1 = w
            · rw [if_pos hstab] at hp
              rcases ab with _ | _ <;> simp at hp
            · rw [if_neg hstab] at hp
              simp only [withStep, List.mem_append, List.mem_cons] at hp
              rcases hp with (hp | hp) | hp
              · rcases ab with _ | _ <;> simp at hp
              · rcases hp with hp | hp | hp | hp <;> first
                  | (simp only [Eff.cmd.injEq] at hp; omega)
                  | simp at hp
              · exact hih _ _ hp
        | wouldBlock =>
          rw [hS] at hp
          dsimp only [] at hp
          simp only [withStep, List.mem_append, List.mem_cons] at hp
          rcases hp with (hp | hp) | hp
          · rcases ab with _ | _ <;> simp at hp
          · rcases hp with hp | hp | hp | hp <;> first
              | (simp only [Eff.cmd.injEq] at hp; omega)
              | simp at hp
          · exact hih wp1 wp2 hp
        | fail e =>
          rw [hS] at hp
          dsimp only [] at hp
          rcases ab with _ | _ <;> simp at hp
      · rw [if_neg hW] at hp
        simp only [withStep, List.mem_append, List.mem_cons] at hp
        rcases hp with (hp | hp) | hp
        · rcases ab with _ | _ <;> simp at hp
        · rcases hp with hp | hp | hp <;> first
            | (simp only [Eff.cmd.injEq] at hp; omega)
            | simp at hp
        · exact hih wp1 wp2 hp

/-- C8 counterexample: the abort park maneuver can command positions outside
the segment between the starting position and the target.  With start 1200,
in-range target 1201 and `pos_up = 1210`, an abort at the first step commands
1207 (on the way up to 1210), which does not lie between 1200 and 1201. -/
theorem turn_to_abort_commands_outside_segment :
    Eff.cmd 1207 ∈ (turn_to
        { abortFlag := fun _ => true, sensor := fun _ => SensorRead.wouldBlock }
        ⟨0, 1300, 1210, 1200⟩ 1201 1 false false true).effs
    ∧ ¬((1200:Int) ≤ 1207 ∧ (1207:Int) ≤ 1201) := by
  decide

/-- C8 (amended): for every `turn_to` call whose target and starting position
lie within `[SERVO_MIN, SERVO_MAX]`, every position commanded to the servo
during the call (including those of an abort park toward `pos_up`) lies
within `[SERVO_MIN, SERVO_MAX]`; an out-of-range target is surfaced as
`SERVO_OUT_OF_RANGE` with no command at all, never clamped into range.
(Absent an abort park, commanded positions even lie between start and
target, but the park steps toward `pos_up` instead — see the
counterexample.) -/
theorem turn_to_commands_in_valid_range (env : Env) (b : Bottle) (pos d : Int)
    (cw ws ab : Bool) :
    (SERVO_MIN ≤ pos → pos ≤ SERVO_MAX → SERVO_MIN ≤ b.servoPos → b.servoPos ≤ SERVO_MAX →
      ∀ p, Eff.cmd p ∈ (turn_to env b pos d cw ws ab).effs →
        SERVO_MIN ≤ p ∧ p ≤ SERVO_MAX)
    ∧ ((pos < SERVO_MIN ∨ SERVO_MAX < pos) →
        (turn_to env b pos d cw ws ab).ret = Errv.servoOutOfRange
        ∧ (turn_to env b pos d cw ws ab).effs = []) := by
  constructor
  · intro hp1 hp2 hc1 hc2 p hp
    unfold turn_to at hp
    rw [if_neg (by omega : ¬(pos < SERVO_MIN ∨ SERVO_MAX < pos))] at hp
    by_cases he : pos = b.servoPos
    · rw [if_pos he] at hp
      simp at hp
    · rw [if_neg he] at hp
      by_cases hdir : b.servoPos < pos
      · rw [if_pos hdir] at hp
        refine turn_to_loop_cmd_range env b.pos_up pos d cw ws ab 1 (Or.inl rfl) hp1 hp2
          (pos - b.servoPos).natAbs 0 (b.servoPos + 1) (-9999) (-9999) b.servoPos
          (by omega) (fun _ => by omega) hc1 hc2 p hp
      · rw [if_neg hdir] at hp
        refine turn_to_loop_cmd_range env b.pos_up pos d cw ws ab (-1) (Or.inr rfl) hp1 hp2
          (pos - b.servoPos).natAbs 0 (b.servoPos + (-1)) (-9999) (-9999) b.servoPos
          (by omega) (fun _ => by omega) hc1 hc2 p hp
  · intro h
    rw [turn_to_out_of_range_aux env b pos d cw ws ab h]
    exact ⟨rfl, rfl⟩

theorem turn_to_commands_in_valid_range_witness :
    SERVO_MIN ≤ (1207:Int) ∧ (1207:Int) ≤ SERVO_MAX :=
  (turn_to_commands_in_valid_range
    { abortFlag := fun _ => true, sensor := fun _ => SensorRead.wouldBlock }
    ⟨0, 1300, 1210, 1200⟩ 1201 1 false false true).1
    (by decide) (by decide) (by decide) (by decide) 1207 (by decide)

theorem pour_attempt_head (b : Bottle) (req orig : Int) :
    ∀ (or0 : Oracle) (ret : Errv) (evs : List Ev) (rest : Oracle),
      pour_attempt b req orig or0 = some (ret, evs, rest) →
      ∃ tl, evs = Ev.msgPouring b.number orig :: tl := by
  intro or0 ret evs rest h
  match or0 with
  | [] => simp [pour_attempt] at h
  | (r1, w1) :: or1 =>
    by_cases h1 : r1 = Errv.ok
    · match or1 with
      | [] => simp [pour_attempt, h1] at h
      | (r2, w2) :: or2 =>
        simp [pour_attempt, h1] at h
        exact ⟨_, h.2.1.symm⟩
    · simp [pour_attempt, h1] at h
      exact ⟨_, h.2.1.symm⟩

theorem pour_attempt_msg_mem (b : Bottle) (req orig : Int) :
    ∀ (or0 : Oracle) (ret : Errv) (evs : List Ev) (rest : Oracle),
      pour_attempt b req orig or0 = some (ret, evs, rest) →
      ∀ n w, Ev.msgPouring n w ∈ evs → n = b.number ∧ w = orig := by
  intro or0 ret evs rest h n w hm
  match or0 with
  | [] => simp [pour_attempt] at h
  | (r1, w1) :: or1 =>
    by_cases h1 : r1 = Errv.ok
    · match or1 with
      | [] => simp [pour_attempt, h1] at h
      | (r2, w2) :: or2 =>
        simp [pour_attempt, h1] at h
        rw [← h.2.1] at hm
        simp at hm
        exact ⟨hm.1, hm.2⟩
    · simp [pour_attempt, h1] at h
      rw [← h.2.1] at hm
      simp at hm
      exact ⟨hm.1, hm.2⟩

theorem pour_recover_empty_no_msg (b : Bottle) :
    ∀ (or0 : Oracle) (e : Errv) (evs : List Ev) (rest : Oracle),
      pour_recover_empty b or0 = some (e, evs, rest) →
      ∀ n w, Ev.msgPouring n w ∉ evs := by
  intro or0 e evs rest h n w hm
  match or0 with
  | [] => simp [pour_recover_empty] at h
  | (r3, w3) :: or3 =>
    by_cases h3 : r3 = Errv.ok
    · match or3 with
      | [] => simp [pour_recover_empty, h3] at h
      | (r4, w4) :: or4 =>
        by_cases h4 : r4 = Errv.ok
        · simp [pour_recover_empty, h3, h4] at h
          rw [← h.2.1] at hm
          simp at hm
        · simp [pour_recover_empty, h3, h4] at h
          rw [← h.2.1] at hm
          simp at hm
    · simp [pour_recover_empty, h3] at h
      rw [← h.2.1] at hm
      simp at hm

theorem pour_recover_cupgone_no_msg (b : Bottle) :
    ∀ (or0 : Oracle) (e : Errv) (evs : List Ev) (rest : Oracle),
      pour_recover_cupgone b or0 = some (e, evs, rest) →
      ∀ n w, Ev.msgPouring n w ∉ evs := by
  intro or0 e evs rest h n w hm
  match or0 with
  | [] => simp [pour_recover_cupgone] at h
  | (r3, w3) :: or3 =>
    by_cases h3 : r3 = Errv.ok
    · match or3 with
      | [] => simp [pour_recover_cupgone, h3] at h
      | (r4, w4) :: or4 =>
        by_cases h4 : r4 = Errv.ok
        · simp [pour_recover_cupgone, h3, h4] at h
          rw [← h.2.1] at hm
          simp at hm
        · simp [pour_recover_cupgone, h3, h4] at h
          rw [← h.2.1] at hm
          simp at hm
    · simp [pour_recover_cupgone, h3] at h
      rw [← h.2.1] at hm
      simp at hm

theorem pour_loop_head (b : Bottle) (req orig : Int) :
    ∀ (fuel : Nat) (or0 : Oracle) (e : Errv) (evs : List Ev) (orr : Oracle),
      pour_loop b req orig fuel or0 = some (e, evs, orr) →
      ∃ tl, evs = Ev.msgPouring b.number orig :: tl := by
  intro fuel
  match fuel with
  | 0 => intro or0 e evs orr h; simp [pour_loop] at h
  | m+1 =>
    intro or0 e evs orr h
    rw [pour_loop] at h
    cases hA : pour_attempt b req orig or0 with
    | none => rw [hA] at h; simp at h
    | some t =>
      obtain ⟨ret, ev1, or2⟩ := t
      rw [hA] at h
      dsimp only [] at h
      obtain ⟨tl1, rfl⟩ := pour_attempt_head b req orig or0 ret ev1 or2 hA
      split_ifs at h with h1 h2 h3
      · simp only [Option.some.injEq, Prod.mk.injEq] at h
        exact ⟨tl1, h.2.1.symm⟩
      · cases hR : pour_recover_empty b or2 with
        | none => rw [hR] at h; simp at h
        | some t2 =>
          obtain ⟨e2, ev2, or3⟩ := t2
          rw [hR] at h
          dsimp only [] at h
          split_ifs at h with h4
          · cases hL : pour_loop b req orig m or3 with
            | none => rw [hL] at h; simp at h
            | some t3 =>
              obtain ⟨e3, ev3, or4⟩ := t3
              rw [hL] at h
              dsimp only [] at h
              simp only [Option.some.injEq, Prod.mk.injEq] at h
              exact ⟨tl1 ++ ev2 ++ ev3, by rw [← h.2.1]; simp⟩
          · simp only [Option.some.injEq, Prod.mk.injEq] at h
            exact ⟨tl1 ++ ev2, by rw [← h.2.1]; simp⟩
      · cases hR : pour_recover_cupgone b or2 with
        | none => rw [hR] at h; simp at h
        | some t2 =>
          obtain ⟨e2, ev2, or3⟩ := t2
          rw [hR] at h
          dsimp only [] at h
          split_ifs at h with h4
          · cases hL : pour_loop b req orig m or3 with
            | none => rw [hL] at h; simp at h
            | some t3 =>
              obtain ⟨e3, ev3, or4⟩ := t3
              rw [hL] at h
              dsimp only [] at h
              simp only [Option.some.injEq, Prod.mk.injEq] at h
              exact ⟨tl1 ++ ev2 ++ ev3, by rw [← h.2.1]; simp⟩
          · simp only [Option.some.injEq, Prod.mk.injEq] at h
            exact ⟨tl1 ++ ev2, by rw [← h.2.1]; simp⟩
      · simp only [Option.some.injEq, Prod.mk.injEq] at h
        exact ⟨tl1, h.2.1.symm⟩

theorem pour_loop_msg_mem (b : Bottle) (req orig : Int) :
    ∀ (fuel : Nat) (or0 : Oracle) (e : Errv) (evs : List Ev) (orr : Oracle),
      pour_loop b req orig fuel or0 = some (e, evs, orr) →
      ∀ n w, Ev.msgPouring n w ∈ evs → n = b.number ∧ w = orig := by
  intro fuel
  induction fuel with
  | zero => intro or0 e evs orr h; simp [pour_loop] at h
  | succ m ih =>
    intro or0 e evs orr h n w hm
    rw [pour_loop] at h
    cases hA : pour_attempt b req orig or0 with
    | none => rw [hA] at h; simp at h
    | some t =>
      obtain ⟨ret, ev1, or2⟩ := t
      rw [hA] at h
      dsimp only [] at h
      have hA1 := pour_attempt_msg_mem b req orig or0 ret ev1 or2 hA n w
      split_ifs at h with h1 h2 h3
      · simp only [Option.some.injEq, Prod.mk.injEq] at h
        rw [← h.2.1] at hm
        exact hA1 hm
      · cases hR : pour_recover_empty b or2 with
        | none => rw [hR] at h; simp at h
        | some t2 =>
          obtain ⟨e2, ev2, or3⟩ := t2
          rw [hR] at h
          dsimp only [] at h
          have hR1 := pour_recover_empty_no_msg b or2 e2 ev2 or3 hR n w
          split_ifs at h with h4
          · cases hL : pour_loop b req orig m or3 with
            | none => rw [hL] at h; simp at h
            | some t3 =>
              obtain ⟨e3, ev3, or4⟩ := t3
              rw [hL] at h
              dsimp only [] at h
              simp only [Option.some.injEq, Prod.mk.injEq] at h
              rw [← h.2.1] at hm
              rw [List.mem_append, List.mem_append] at hm
              rcases hm with (hm | hm) | hm
              · exact hA1 hm
              · exact absurd hm hR1
              · exact ih or3 e3 ev3 or4 hL n w hm
          · simp only [Option.some.injEq, Prod.mk.injEq] at h
            rw [← h.2.1] at hm
            rw [List.mem_append] at hm
            rcases hm with hm | hm
            · exact hA1 hm
            · exact absurd hm hR1
      · cases hR : pour_recover_cupgone b or2 with
        | none => rw [hR] at h; simp at h
        | some t2 =>
          obtain ⟨e2, ev2, or3⟩ := t2
          rw [hR] at h
          dsimp only [] at h
          have hR1 := pour_recover_cupgone_no_msg b or2 e2 ev2 or3 hR n w
          split_ifs at h with h4
          · cases hL : pour_loop b req orig m or3 with
            | none => rw [hL] at h; simp at h
            | some t3 =>
              obtain ⟨e3, ev3, or4⟩ := t3
              rw [hL] at h
              dsimp only [] at h
              simp only [Option.some.injEq, Prod.mk.injEq] at h
              rw [← h.2.1] at hm
              rw [List.mem_append, List.mem_append] at hm
              rcases hm with (hm | hm) | hm
              · exact hA1 hm
              · exact absurd hm hR1
              · exact ih or3 e3 ev3 or4 hL n w hm
          · simp only [Option.some.injEq, Prod.mk.injEq] at h
            rw [← h.2.1] at hm
            rw [List.mem_append] at hm
            rcases hm with hm | hm
            · exact hA1 hm
            · exact absurd hm hR1
      · simp only [Option.some.injEq, Prod.mk.injEq] at h
        rw [← h.2.1] at hm
        exact hA1 hm

theorem pour_baseline_attempt_no_msg (b : Bottle) (orig0 : Int) :
    ∀ (or0 : Oracle) (ret : Errv) (o : Int) (evs : List Ev) (rest : Oracle),
      pour_baseline_attempt b orig0 or0 = some (ret, o, evs, rest) →
      ∀ n w, Ev.msgPouring n w ∉ evs := by
  intro or0 ret o evs rest h n w hm
  match or0 with
  | [] => simp [pour_baseline_attempt] at h
  | (r1, w1) :: or1 =>
    by_cases h1 : r1 = Errv.weightNotStable
    · match or1 with
      | [] => simp [pour_baseline_attempt, h1] at h
      | (r2, w2) :: or2 =>
        simp [pour_baseline_attempt, h1] at h
        rw [← h.2.2.1] at hm
        simp at hm
    · simp [pour_baseline_attempt, h1] at h
      rw [← h.2.2.1] at hm
      simp at hm

theorem pour_baseline_spec (b : Bottle) :
    ∀ (fuel : Nat) (orig0 : Int) (or0 : Oracle) (e : Errv) (o : Int)
      (evs : List Ev) (rest : Oracle),
      pour_baseline b orig0 fuel or0 = some (e, o, evs, rest) →
      (e = Errv.ok → WEIGHT_EPSILON ≤ o) ∧ (∀ n w, Ev.msgPouring n w ∉ evs) := by
  intro fuel
  induction fuel with
  | zero => intro orig0 or0 e o evs rest h; simp [pour_baseline] at h
  | succ m ih =>
    intro orig0 or0 e o evs rest h
    rw [pour_baseline] at h
    cases hA : pour_baseline_attempt b orig0 or0 with
    | none => rw [hA] at h; simp at h
    | some t =>
      obtain ⟨ret, o2, ev1, or2⟩ := t
      rw [hA] at h
      dsimp only [] at h
      have hA1 := pour_baseline_attempt_no_msg b orig0 or0 ret o2 ev1 or2 hA
      split_ifs at h with h1 h2
      · simp only [Option.some.injEq, Prod.mk.injEq] at h
        constructor
        · intro he
          exact absurd (h.1.trans he) h1.1
        · intro n w hm
          rw [← h.2.2.1] at hm
          exact hA1 n w hm
      · cases or2 with
        | nil => simp at h
        | cons hd or3 =>
          obtain ⟨r3, w3⟩ := hd
          dsimp only [] at h
          split_ifs at h with h3
          · simp only [Option.some.injEq, Prod.mk.injEq] at h
            constructor
            · intro he
              exact absurd (h.1.trans he) h3
            · intro n w hm
              rw [← h.2.2.1] at hm
              rw [List.mem_append] at hm
              rcases hm with hm | hm
              · exact hA1 n w hm
              · simp at hm
          · cases hL : pour_baseline b o2 m or3 with
            | none => rw [hL] at h; simp at h
            | some t3 =>
              obtain ⟨e3, o3, ev3, or4⟩ := t3
              rw [hL] at h
              dsimp only [] at h
              simp only [Option.some.injEq, Prod.mk.injEq] at h
              have hrec := ih o2 or3 e3 o3 ev3 or4 hL
              constructor
              · intro he
                rw [← h.2.1]
                exact hrec.1 (h.1.trans he)
              · intro n w hm
                rw [← h.2.2.1] at hm
                rw [List.mem_append, List.mem_append] at hm
                rcases hm with (hm | hm) | hm
                · exact hA1 n w hm
                · simp at hm
                · exact hrec.2 n w hm
      · simp only [Option.some.injEq, Prod.mk.injEq] at h
        constructor
        · intro _
          push_neg at h2
          rw [← h.2.1]
          exact h2.2
        · intro n w hm
          rw [← h.2.2.1] at hm
          exact hA1 n w hm

theorem pour_tail_no_msg (b : Bottle) (orig : Int) :
    ∀ (or0 : Oracle) (e : Errv) (m : Option Int) (evs : List Ev),
      pour_tail b orig or0 = some (e, m, evs) →
      ∀ n w, Ev.msgPouring n w ∉ evs := by
  intro or0 e m evs h n w hm
  match or0 with
  | [] => simp [pour_tail] at h
  | (r1, w1) :: or1 =>
    by_cases h1 : r1 = Errv.ok
    · match or1 with
      | [] => simp [pour_tail, h1] at h
      | (r2, w2) :: or2 =>
        by_cases h2 : r2 = Errv.ok
        · simp [pour_tail, h1, h2] at h
          rw [← h.2.2] at hm
          simp at hm
        · simp [pour_tail, h1, h2] at h
          rw [← h.2.2] at hm
          simp at hm
    · simp [pour_tail, h1] at h
      rw [← h.2.2] at hm
      simp at hm

/-- C10: `pour` never emits a `POURING` status (and hence never starts the
pouring loop or tilts down) with a baseline weight below `WEIGHT_EPSILON`:
every `POURING <bottle> <weight>` event in any complete `pour` run carries a
weight of at least `WEIGHT_EPSILON`, because a baseline below the threshold
sends the baseline loop into its wait-for-cup sub-state and re-measures. -/
theorem pour_baseline_at_least_epsilon (b : Bottle) (req : Int) (fuelB fuelL : Nat)
    (or0 : Oracle) (e : Errv) (m : Option Int) (evs : List Ev)
    (h : pour b req fuelB fuelL or0 = some (e, m, evs)) :
    ∀ n w, Ev.msgPouring n w ∈ evs → WEIGHT_EPSILON ≤ w := by
  intro n w hm
  unfold pour at h
  cases hB : pour_baseline b 0 fuelB or0 with
  | none => rw [hB] at h; simp at h
  | some t =>
    obtain ⟨e0, orig, evB, or1⟩ := t
    rw [hB] at h
    dsimp only [] at h
    have hBs := pour_baseline_spec b fuelB 0 or0 e0 orig evB or1 hB
    split_ifs at h with h0
    · simp only [Option.some.injEq, Prod.mk.injEq] at h
      rw [← h.2.2] at hm
      exact absurd hm (hBs.2 n w)
    · push_neg at h0
      have heps := hBs.1 h0
      cases hL : pour_loop b req orig fuelL or1 with
      | none => rw [hL] at h; simp at h
      | some t2 =>
        obtain ⟨e1, evL, or2⟩ := t2
        rw [hL] at h
        dsimp only [] at h
        have hLm := pour_loop_msg_mem b req orig fuelL or1 e1 evL or2 hL n w
        split_ifs at h with h1
        · simp only [Option.some.injEq, Prod.mk.injEq] at h
          rw [← h.2.2] at hm
          rw [List.mem_append] at hm
          rcases hm with hm | hm
          · exact absurd hm (hBs.2 n w)
          · obtain ⟨-, rfl⟩ := hLm hm
            exact heps
        · cases hT : pour_tail b orig or2 with
          | none => rw [hT] at h; simp at h
          | some t3 =>
            obtain ⟨e2, mm, evT⟩ := t3
            rw [hT] at h
            dsimp only [] at h
            simp only [Option.some.injEq, Prod.mk.injEq] at h
            rw [← h.2.2] at hm
            rw [List.mem_append, List.mem_append] at hm
            rcases hm with (hm | hm) | hm
            · exact absurd hm (hBs.2 n w)
            · obtain ⟨-, rfl⟩ := hLm hm
              exact heps
            · exact absurd hm (pour_tail_no_msg b orig or2 e2 mm evT hT n w)

theorem pour_baseline_at_least_epsilon_witness : WEIGHT_EPSILON ≤ (20:Int) :=
  pour_baseline_at_least_epsilon ⟨0, 1300, 1500, 1200⟩ 30 1 1
    [(Errv.ok, 20), (Errv.ok, 0), (Errv.ok, 0), (Errv.ok, 0), (Errv.ok, 120)]
    Errv.ok (some 100)
    [Ev.callTurnTo 1350 TURN_DOWN_DELAY true true, Ev.msgPouring 0 20,
     Ev.callTurnTo 1300 TURN_DOWN_DELAY true false,
     Ev.callDelayUntil POURING_TIMEOUT 48,
     Ev.callTurnTo 1400 TURN_UP_DELAY false false, Ev.callGetGrams]
    (by decide) 0 20 (by decide)

/-- C5: when an iteration of the pouring loop fails with `BOTTLE_EMPTY`, the
loop emits the error naming the bottle, turns to the distinctive empty rest
position `pos_up + BOTTLE_EMPTY_POS_OFFSET`, blocks in `wait_for_resume`
(whose nonzero result — e.g. `ABORTED` — is returned from `pour`), clears
the displayed error, and retries the loop from the top; any retried
iteration re-emits the `POURING` status first. -/
theorem pour_loop_bottle_empty_recovery (b : Bottle) (req orig : Int) (fuel : Nat)
    (w1 w2 w3 w4 : Int) (rest : Oracle) :
    (pour_loop b req orig (fuel+1)
        ((Errv.ok, w1) :: (Errv.bottleEmpty, w2) :: (Errv.ok, w3) :: (Errv.ok, w4) :: rest)
      = (pour_loop b req orig fuel rest).map (fun r =>
          (r.1,
           Ev.msgPouring b.number orig ::
             Ev.callTurnTo b.pos_down TURN_DOWN_DELAY true false ::
             Ev.callDelayUntil POURING_TIMEOUT (orig + req - UPGRIGHT_OFFSET) ::
             Ev.errBottleEmpty b.number ::
             Ev.callTurnTo (b.pos_up + BOTTLE_EMPTY_POS_OFFSET) TURN_UP_DELAY false false ::
             Ev.callWaitForResume :: Ev.lcdClear :: r.2.1,
           r.2.2)))
    ∧ (pour_loop b req orig (fuel+1)
        ((Errv.ok, w1) :: (Errv.bottleEmpty, w2) :: (Errv.ok, w3) :: (Errv.aborted, w4) :: rest)
      = some (Errv.aborted,
          [Ev.msgPouring b.number orig,
           Ev.callTurnTo b.pos_down TURN_DOWN_DELAY true false,
           Ev.callDelayUntil POURING_TIMEOUT (orig + req - UPGRIGHT_OFFSET),
           Ev.errBottleEmpty b.number,
           Ev.callTurnTo (b.pos_up + BOTTLE_EMPTY_POS_OFFSET) TURN_UP_DELAY false false,
           Ev.callWaitForResume], rest))
    ∧ (∀ e evs orr, pour_loop b req orig fuel rest = some (e, evs, orr) →
        ∃ tl, evs = Ev.msgPouring b.number orig :: tl) := by
  refine ⟨?_, ?_, fun e evs orr h => pour_loop_head b req orig fuel rest e evs orr h⟩
  · cases hL : pour_loop b req orig fuel rest with
    | none => simp [pour_loop, pour_attempt, pour_recover_empty, hL]
    | some t =>
      obtain ⟨e, evs, orr⟩ := t
      simp [pour_loop, pour_attempt, pour_recover_empty, hL]
  · simp [pour_loop, pour_attempt, pour_recover_empty]

theorem pour_loop_bottle_empty_recovery_witness :
    ∃ tl, [Ev.msgPouring 0 20, Ev.callTurnTo 1300 TURN_DOWN_DELAY true false,
           Ev.callDelayUntil POURING_TIMEOUT 48]
      = Ev.msgPouring (Bottle.mk 0 1300 1500 1200).number 20 :: tl :=
  (pour_loop_bottle_empty_recovery ⟨0, 1300, 1500, 1200⟩ 30 20 1 0 0 0 0
      [(Errv.ok, 5), (Errv.ok, 6)]).2.2
    Errv.ok
    [Ev.msgPouring 0 20, Ev.callTurnTo 1300 TURN_DOWN_DELAY true false,
     Ev.callDelayUntil POURING_TIMEOUT 48]
    [] (by decide)

/-- C6: when the pouring loop exits successfully, `pour` moves the bottle to
the pause position `(pos_up + pos_down) / 2` (not fully up), takes the
settled weight sample, and returns success with
`measured_amount = settled weight − baseline weight`. -/
theorem pour_success_measures_delta (b : Bottle) (req : Int) (fuelB fuelL : Nat)
    (or0 : Oracle) (orig : Int) (evB : List Ev) (or1 : Oracle) (evL : List Ev)
    (or2 : Oracle) (x settled : Int) (rest : Oracle)
    (hB : pour_baseline b 0 fuelB or0 = some (Errv.ok, orig, evB, or1))
    (hL : pour_loop b req orig fuelL or1 = some (Errv.ok, evL, or2))
    (hO : or2 = (Errv.ok, x) :: (Errv.ok, settled) :: rest) :
    pour b req fuelB fuelL or0 =
      some (Errv.ok, some (settled - orig),
        evB ++ evL ++
          [Ev.callTurnTo ((b.pos_up + b.pos_down) / 2) TURN_UP_DELAY false false,
           Ev.callGetGrams]) := by
  have htail : pour_tail b orig ((Errv.ok, x) :: (Errv.ok, settled) :: rest)
      = some (Errv.ok, some (settled - orig),
          [Ev.callTurnTo (get_pause_pos b) TURN_UP_DELAY false false, Ev.callGetGrams]) := by
    simp [pour_tail]
  have hpp : get_pause_pos b = (b.pos_up + b.pos_down) / 2 := by
    rw [get_pause_pos, Int.add_comm]
  unfold pour
  rw [hB]
  dsimp only []
  rw [if_neg (by simp : ¬(Errv.ok ≠ Errv.ok))]
  rw [hL]
  dsimp only []
  rw [if_neg (by simp : ¬(Errv.ok ≠ Errv.ok))]
  rw [hO, htail, hpp]

theorem pour_success_measures_delta_witness :
    pour ⟨0, 1300, 1500, 1200⟩ 30 1 1
        [(Errv.ok, 20), (Errv.ok, 0), (Errv.ok, 0), (Errv.ok, 0), (Errv.ok, 120)]
      = some (Errv.ok, some 100,
          [Ev.callTurnTo 1350 TURN_DOWN_DELAY true true,
           Ev.msgPouring 0 20,
           Ev.callTurnTo 1300 TURN_DOWN_DELAY true false,
           Ev.callDelayUntil POURING_TIMEOUT 48,
           Ev.callTurnTo 1400 TURN_UP_DELAY false false,
           Ev.callGetGrams]) := by
  have h := pour_success_measures_delta ⟨0, 1300, 1500, 1200⟩ 30 1 1
    [(Errv.ok, 20), (Errv.ok, 0), (Errv.ok, 0), (Errv.ok, 0), (Errv.ok, 120)]
    20 [Ev.callTurnTo 1350 TURN_DOWN_DELAY true true]
    [(Errv.ok, 0), (Errv.ok, 0), (Errv.ok, 0), (Errv.ok, 120)]
    [Ev.msgPouring 0 20, Ev.callTurnTo 1300 TURN_DOWN_DELAY true false,
     Ev.callDelayUntil POURING_TIMEOUT 48]
    [(Errv.ok, 0), (Errv.ok, 120)] 0 120 []
    (by decide) (by decide) rfl
  rw [h]
  decide

end Evobot
